import Mathlib

/-!
# Verification of the TW-Stock-Intraday-Monitor scanner

Shallow embedding of the pure logic of the repository's monitor scripts:
threshold detection (`monitor.py`), list chunking, markdown sanitising
(`utils.py`), the Telegram retry path (`telegram_client.py`), the AI
commentary cache (`ai_analyzer.py`), the per-symbol scan and notification
flow (`monitor.py`), and the database upsert layer (`db_repo.py`).

Python floats are modelled as rationals (`ℚ`), Python strings as `String`
or `List Char`, Python dicts used as keyed tables as association lists.
-/

set_option autoImplicit false

namespace TWMon

/-! ## Config access (`monitor.py` `_cfg_get`) -/

/-- `_cfg_get(cfg, key, default)` from `monitor.py`: `cfg.get(key)`, with
`default` substituted when the key is absent (`None`). The config dict is
modelled as a partial map from key names to rational values. -/
def _cfg_get (cfg : String → Option ℚ) (key : String) (default : ℚ) : ℚ :=
  match cfg key with
  | none => default
  | some v => v

/-- The default configuration: a cfg dict in which every threshold key is
unset, so that `_cfg_get` falls back to the hard-coded defaults (matching
`Config.MAIN_BOARD_THRESHOLD = 0.098`, `Config.ROTC_THRESHOLD = 0.10`). -/
def defaultCfg : String → Option ℚ := fun _ => none

/-! ## Limit-up detection (`monitor.py` `_detect_limit_up`) -/

/-- `_detect_limit_up(ret, is_rotc, cfg)` from `monitor.py`:
`main_th = cfg.get("MAIN_BOARD_THRESHOLD") or 0.098`,
`rotc_th = cfg.get("ROTC_THRESHOLD") or 0.10`,
`th = rotc_th if is_rotc else main_th`, result `ret >= th`. -/
def _detect_limit_up (ret : ℚ) (is_rotc : Bool) (cfg : String → Option ℚ) : Bool :=
  let main_th := _cfg_get cfg "MAIN_BOARD_THRESHOLD" (98 / 1000)
  let rotc_th := _cfg_get cfg "ROTC_THRESHOLD" (10 / 100)
  let th := if is_rotc then rotc_th else main_th
  decide (ret ≥ th)

/-! ## Markdown sanitising (`utils.py` `clean_markdown`) -/

/-- The characters Python's `str.strip()` removes, restricted to the ASCII
whitespace Python treats as such: space, tab, newline, carriage return,
vertical tab, form feed. -/
def pySpace (c : Char) : Bool :=
  c = ' ' || c = '\t' || c = '\n' || c = '\r' || c = Char.ofNat 11 || c = Char.ofNat 12

/-- The markdown-sensitive characters replaced by `clean_markdown`:
`["*", "_", "`", "[", "]", "(", ")"]` (the backtick written by code point). -/
def mdChars : List Char := ['*', '_', Char.ofNat 96, '[', ']', '(', ')']

/-- `text.replace(ch, " ")` for a single character `ch`, on a string
modelled as a list of characters. -/
def replaceChar (ch : Char) (s : List Char) : List Char :=
  s.map (fun a => if a = ch then ' ' else a)

/-- The `for ch in [...]: text = text.replace(ch, " ")` loop. -/
def foldReplace (cs : List Char) (s : List Char) : List Char :=
  cs.foldl (fun acc ch => replaceChar ch acc) s

/-- Python `str.strip()`: drop leading whitespace, then drop trailing
whitespace (implemented by reversing). -/
def stripList (s : List Char) : List Char :=
  ((s.dropWhile pySpace).reverse.dropWhile pySpace).reverse

/-- `clean_markdown(text)` from `utils.py`: empty (falsy) input maps to the
empty string; otherwise every markdown-sensitive character is replaced by a
space and the result is stripped. -/
def clean_markdown (text : List Char) : List Char :=
  if text = [] then []
  else stripList (foldReplace mdChars text)

/-! ## Chunking (`monitor.py` `_chunk`) -/

/-- Python `range(start, stop, step)` for a positive step. -/
def pyRange (start stop step : ℕ) : List ℕ :=
  if h : 0 < step ∧ start < stop then
    start :: pyRange (start + step) stop step
  else
    []
termination_by stop - start
decreasing_by
  omega

/-- `_chunk(lst, n)` from `monitor.py`:
`[lst[i:i + n] for i in range(0, len(lst), n)]`. -/
def _chunk {α : Type} (lst : List α) (n : ℕ) : List (List α) :=
  (pyRange 0 lst.length n).map (fun i => (lst.drop i).take n)

/-! ## Lemmas about `clean_markdown` -/

lemma mem_of_mem_replaceChar {a ch : Char} {s : List Char} (h : a ∈ replaceChar ch s) :
    a = ' ' ∨ a ∈ s := by
  rcases List.mem_map.1 h with ⟨b, hb, hba⟩
  by_cases hc : b = ch
  · rw [if_pos hc] at hba
    exact Or.inl hba.symm
  · rw [if_neg hc] at hba
    exact Or.inr (hba ▸ hb)

lemma not_mem_replaceChar_self {ch : Char} (hch : ch ≠ ' ') (s : List Char) :
    ch ∉ replaceChar ch s := by
  intro h
  rcases List.mem_map.1 h with ⟨b, hb, hba⟩
  by_cases hc : b = ch
  · rw [if_pos hc] at hba
    exact hch hba.symm
  · rw [if_neg hc] at hba
    exact hc hba

lemma mem_of_mem_foldReplace {a : Char} {cs s : List Char} (h : a ∈ foldReplace cs s) :
    a = ' ' ∨ a ∈ s := by
  induction cs generalizing s with
  | nil => exact Or.inr h
  | cons c cs ih =>
    rcases @ih (replaceChar c s) h with h1 | h2
    · exact Or.inl h1
    · exact mem_of_mem_replaceChar h2

lemma not_mem_foldReplace {a : Char} {cs s : List Char} (ha : a ∈ cs) (hsp : a ≠ ' ') :
    a ∉ foldReplace cs s := by
  induction cs generalizing s with
  | nil => simp at ha
  | cons c cs ih =>
    intro h
    rcases List.mem_cons.1 ha with rfl | hmem
    · rcases @mem_of_mem_foldReplace a cs (replaceChar a s) h with h1 | h2
      · exact hsp h1
      · exact not_mem_replaceChar_self hsp s h2
    · exact ih hmem h

lemma mem_of_mem_stripList {a : Char} {s : List Char} (h : a ∈ stripList s) : a ∈ s := by
  unfold stripList at h
  rw [List.mem_reverse] at h
  have h1 := (List.dropWhile_sublist pySpace).mem h
  rw [List.mem_reverse] at h1
  exact (List.dropWhile_sublist pySpace).mem h1

lemma dropWhile_dropWhile (p : Char → Bool) (l : List Char) :
    (l.dropWhile p).dropWhile p = l.dropWhile p := by
  induction l with
  | nil => rfl
  | cons a t ih =>
    by_cases h : p a = true
    · rw [List.dropWhile_cons, if_pos h]
      exact ih
    · rw [List.dropWhile_cons, if_neg h, List.dropWhile_cons, if_neg h]

lemma dropWhile_eq_self_of_pre {p : Char → Bool} {l m : List Char}
    (hl : l.dropWhile p = l) (hm : m <+: l) : m.dropWhile p = m := by
  cases m with
  | nil => rfl
  | cons a t =>
    rcases hm with ⟨r, hr⟩
    subst hr
    rw [List.cons_append] at hl
    rw [List.dropWhile_cons] at hl ⊢
    by_cases h : p a = true
    · rw [if_pos h] at hl
      exfalso
      have hlen : (List.dropWhile p (t ++ r)).length = (t ++ r).length + 1 := by
        rw [hl]
        simp only [List.length_cons]
      have hle := (@List.dropWhile_sublist _ (t ++ r) p).length_le
      omega
    · rw [if_neg h]

lemma stripList_pre (s : List Char) : stripList s <+: s.dropWhile pySpace := by
  unfold stripList
  have h := @List.dropWhile_suffix _ ((s.dropWhile pySpace).reverse) pySpace
  have h2 := List.reverse_prefix.2 h
  rwa [List.reverse_reverse] at h2

lemma dropWhile_stripList (s : List Char) :
    (stripList s).dropWhile pySpace = stripList s :=
  dropWhile_eq_self_of_pre (dropWhile_dropWhile pySpace s) (stripList_pre s)

lemma dropWhile_reverse_stripList (s : List Char) :
    (stripList s).reverse.dropWhile pySpace = (stripList s).reverse := by
  unfold stripList
  rw [List.reverse_reverse]
  exact dropWhile_dropWhile pySpace _

lemma stripList_stripList (s : List Char) : stripList (stripList s) = stripList s := by
  show (((stripList s).dropWhile pySpace).reverse.dropWhile pySpace).reverse = stripList s
  rw [dropWhile_stripList, dropWhile_reverse_stripList, List.reverse_reverse]

lemma replaceChar_eq_self {ch : Char} {s : List Char} (h : ch ∉ s) : replaceChar ch s = s := by
  unfold replaceChar
  have hmap : ∀ a ∈ s, (if a = ch then ' ' else a) = a := by
    intro a ha
    rw [if_neg]
    rintro rfl
    exact h ha
  rw [List.map_congr_left hmap]
  exact List.map_id' s

lemma foldReplace_eq_self {cs s : List Char} (h : ∀ c ∈ cs, c ∉ s) : foldReplace cs s = s := by
  induction cs with
  | nil => rfl
  | cons c cs ih =>
    have hc : replaceChar c s = s := replaceChar_eq_self (h c (by simp))
    show foldReplace cs (replaceChar c s) = s
    rw [hc]
    exact ih (fun d hd => h d (by simp [hd]))

/-! ## C1: limit-up threshold comparison -/

/-- C1 (amended): under the default configuration, `_detect_limit_up`
returns `true` iff the return is greater than **or equal to** the board's
fixed threshold — 0.10 when `is_rotc`, 0.098 otherwise. The source
comparison is `ret >= th`, not the strict inequality the claim states. -/
theorem detect_limit_up_iff (ret : ℚ) (is_rotc : Bool) :
    _detect_limit_up ret is_rotc defaultCfg = true ↔
      ret ≥ (if is_rotc then (10 : ℚ) / 100 else 98 / 1000) := by
  cases is_rotc <;> simp [_detect_limit_up, _cfg_get, defaultCfg]

/-- C1 counterexample: at `ret = 0.098` on the main board the code flags
the symbol (the comparison is `>=`), while the claim's strict reading
(`ret > 0.098`) says it must not be flagged. -/
theorem detect_limit_up_strict_false :
    ¬ (_detect_limit_up (98 / 1000) false defaultCfg = true ↔
        (98 : ℚ) / 1000 > 98 / 1000) := by
  intro h
  have htrue : _detect_limit_up (98 / 1000) false defaultCfg = true := by
    simp [_detect_limit_up, _cfg_get, defaultCfg]
  exact absurd (h.1 htrue) (lt_irrefl _)

/-! ## C10: `clean_markdown` sanitizes and is idempotent -/

/-- C10: `clean_markdown` removes every markdown-sensitive character
(`* _ backtick [ ] ( )`), leaves no leading or trailing whitespace, is
idempotent, and maps the empty (falsy) string to the empty string. -/
theorem clean_markdown_sanitizes (s : List Char) :
    (∀ c ∈ clean_markdown s, c ∉ mdChars) ∧
    (clean_markdown s).dropWhile pySpace = clean_markdown s ∧
    (clean_markdown s).reverse.dropWhile pySpace = (clean_markdown s).reverse ∧
    clean_markdown (clean_markdown s) = clean_markdown s ∧
    clean_markdown ([] : List Char) = [] := by
  have hmd : ∀ c ∈ mdChars, c ≠ ' ' := by decide
  by_cases hs : s = []
  · subst hs
    refine ⟨?_, rfl, rfl, rfl, rfl⟩
    intro c hc
    simp [clean_markdown] at hc
  · have hcm : clean_markdown s = stripList (foldReplace mdChars s) := by
      rw [clean_markdown, if_neg hs]
    have hnomem : ∀ c ∈ mdChars, c ∉ clean_markdown s := by
      intro c hc hmem
      rw [hcm] at hmem
      exact not_mem_foldReplace hc (hmd c hc) (mem_of_mem_stripList hmem)
    refine ⟨fun c hc hmem => hnomem c hmem hc, ?_, ?_, ?_, rfl⟩
    · rw [hcm]
      exact dropWhile_stripList _
    · rw [hcm]
      exact dropWhile_reverse_stripList _
    · by_cases hr : clean_markdown s = []
      · rw [hr]
        rfl
      · rw [clean_markdown, if_neg hr, foldReplace_eq_self hnomem, hcm,
          stripList_stripList]

/-- C10 witness: a concrete evaluation of the sanitizer — the character `a`
survives `clean_markdown` on the input `"*a"` and is not markdown-sensitive. -/
theorem clean_markdown_sanitizes_witness : 'a' ∉ mdChars :=
  (clean_markdown_sanitizes ['*', 'a']).1 'a' (by decide)

/-! ## Lemmas about `pyRange` and `_chunk` -/

lemma pyRange_eq_nil {start stop step : ℕ} (h : stop ≤ start) :
    pyRange start stop step = [] := by
  rw [pyRange, dif_neg]
  push_neg
  intro
  omega

lemma pyRange_shift (a b s k : ℕ) :
    pyRange (a + k) (b + k) s = (pyRange a b s).map (· + k) := by
  induction a, b, s using pyRange.induct with
  | case1 a b s h ih =>
    conv_lhs => rw [pyRange]
    conv_rhs => rw [pyRange]
    rw [dif_pos ⟨h.1, by omega⟩, dif_pos h, List.map_cons]
    congr 1
    have hh : a + k + s = a + s + k := by omega
    rw [hh]
    exact ih
  | case2 a b s h =>
    conv_lhs => rw [pyRange]
    conv_rhs => rw [pyRange]
    rw [dif_neg (by omega), dif_neg h]
    rfl

lemma chunk_nil {α : Type} (n : ℕ) : _chunk ([] : List α) n = [] := by
  unfold _chunk
  rw [List.length_nil, pyRange_eq_nil (le_refl 0)]
  rfl

lemma chunk_cons {α : Type} (l : List α) (n : ℕ) (hn : 0 < n) (hl : l ≠ []) :
    _chunk l n = l.take n :: _chunk (l.drop n) n := by
  have hlen : 0 < l.length := List.length_pos.2 hl
  unfold _chunk
  rw [pyRange, dif_pos ⟨hn, hlen⟩, List.map_cons]
  simp only [List.drop_zero, Nat.zero_add]
  congr 1
  rw [List.length_drop]
  by_cases hle : l.length ≤ n
  · have h2 : l.length - n = 0 := by omega
    rw [pyRange_eq_nil hle, h2, pyRange_eq_nil (le_refl 0)]
    rfl
  · have hx : l.length - n + n = l.length := by omega
    have hs := pyRange_shift 0 (l.length - n) n n
    rw [Nat.zero_add, hx] at hs
    rw [hs, List.map_map]
    apply List.map_congr_left
    intro i _
    simp only [Function.comp_apply]
    rw [List.drop_drop, Nat.add_comm i n]

lemma chunk_ne_nil {α : Type} {l : List α} {n : ℕ} (hn : 0 < n) (hl : l ≠ []) :
    _chunk l n ≠ [] := by
  rw [chunk_cons l n hn hl]
  exact List.cons_ne_nil _ _

lemma chunk_flatten_aux {α : Type} (n : ℕ) (hn : 0 < n) :
    ∀ (N : ℕ) (lst : List α), lst.length ≤ N → (_chunk lst n).flatten = lst := by
  intro N
  induction N with
  | zero =>
    intro lst hlst
    have h0 : lst = [] := List.length_eq_zero.1 (by omega)
    subst h0
    rw [chunk_nil]
    rfl
  | succ N ih =>
    intro lst hlst
    by_cases hl : lst = []
    · subst hl
      rw [chunk_nil]
      rfl
    · rw [chunk_cons lst n hn hl, List.flatten_cons,
        ih (lst.drop n) (by rw [List.length_drop]; omega)]
      exact List.take_append_drop n lst

lemma chunk_mem_ne_nil_aux {α : Type} (n : ℕ) (hn : 0 < n) :
    ∀ (N : ℕ) (lst : List α), lst.length ≤ N → ∀ c ∈ _chunk lst n, c ≠ [] := by
  intro N
  induction N with
  | zero =>
    intro lst hlst c hc
    have h0 : lst = [] := List.length_eq_zero.1 (by omega)
    subst h0
    rw [chunk_nil] at hc
    simp at hc
  | succ N ih =>
    intro lst hlst c hc
    by_cases hl : lst = []
    · subst hl
      rw [chunk_nil] at hc
      simp at hc
    · rw [chunk_cons lst n hn hl] at hc
      rcases List.mem_cons.1 hc with rfl | hmem
      · rw [Ne, List.take_eq_nil_iff]
        push_neg
        exact ⟨by omega, hl⟩
      · exact ih (lst.drop n) (by rw [List.length_drop]; omega) c hmem

lemma chunk_dropLast_aux {α : Type} (n : ℕ) (hn : 0 < n) :
    ∀ (N : ℕ) (lst : List α), lst.length ≤ N →
      ∀ c ∈ (_chunk lst n).dropLast, c.length = n := by
  intro N
  induction N with
  | zero =>
    intro lst hlst c hc
    have h0 : lst = [] := List.length_eq_zero.1 (by omega)
    subst h0
    rw [chunk_nil] at hc
    simp at hc
  | succ N ih =>
    intro lst hlst c hc
    by_cases hl : lst = []
    · subst hl
      rw [chunk_nil] at hc
      simp at hc
    · rw [chunk_cons lst n hn hl] at hc
      by_cases hrest : _chunk (lst.drop n) n = []
      · rw [hrest] at hc
        simp at hc
      · rw [List.dropLast_cons_of_ne_nil hrest] at hc
        rcases List.mem_cons.1 hc with rfl | hmem
        · have hdrop : lst.drop n ≠ [] := by
            intro hd
            exact hrest (hd ▸ chunk_nil n)
          have hlen : n < lst.length := by
            by_contra hcon
            exact hdrop (List.drop_eq_nil_of_le (by omega))
          rw [List.length_take]
          omega
        · exact ih (lst.drop n) (by rw [List.length_drop]; omega) c hmem

/-! ## C9: `_chunk` is a partition -/

/-- C9: for `n > 0`, `_chunk lst n` concatenates back to `lst`, every chunk
is non-empty, and every chunk except possibly the last has length exactly
`n`. -/
theorem chunk_partition {α : Type} (lst : List α) (n : ℕ) (hn : 0 < n) :
    (_chunk lst n).flatten = lst ∧
    (∀ c ∈ _chunk lst n, c ≠ []) ∧
    (∀ c ∈ (_chunk lst n).dropLast, c.length = n) :=
  ⟨chunk_flatten_aux n hn lst.length lst (le_refl _),
   chunk_mem_ne_nil_aux n hn lst.length lst (le_refl _),
   chunk_dropLast_aux n hn lst.length lst (le_refl _)⟩

/-- C9 witness: the partition property evaluated on `[1,2,3,4,5]` with
chunk size 2. -/
theorem chunk_partition_witness :
    (_chunk [1, 2, 3, 4, 5] 2).flatten = [1, 2, 3, 4, 5] ∧
    (∀ c ∈ _chunk [1, 2, 3, 4, 5] 2, c ≠ []) ∧
    (∀ c ∈ (_chunk [1, 2, 3, 4, 5] 2).dropLast, c.length = 2) :=
  chunk_partition [1, 2, 3, 4, 5] 2 (by decide)

/-! ## Telegram send/retry (`telegram_client.py` `TelegramClient.send`) -/

/-- The HTTP response to the first `requests.post` in `send`, as the code
inspects it: the status code and the value found at
`json().get("parameters", {}).get("retry_after", ...)` when present. -/
structure TgResponse where
  status : ℕ
  retry_after : Option ℕ
deriving DecidableEq, Repr

/-- An observable side effect of `TelegramClient.send`. -/
inductive TgAction : Type where
  | post (payload : String)
  | sleepSecs (secs : ℚ)
deriving DecidableEq, Repr

/-- `TelegramClient.send(message, delay)` from `telegram_client.py`, as the
sequence of HTTP posts and sleeps it performs, given the response to the
first post. Missing credentials (`ready = false`) return before any post;
status 200 only logs; status 429 sleeps for the server-advised
`retry_after` (default 5) and re-posts the same payload once; any other
status only logs the failure. The trailing `time.sleep(delay)` runs on
every path that reaches the request. -/
def TelegramClient.send (ready : Bool) (payload : String) (delay : ℚ)
    (resp : TgResponse) : List TgAction :=
  if ready = false then []
  else
    (if resp.status = 200 then [TgAction.post payload]
     else if resp.status = 429 then
       [TgAction.post payload,
        TgAction.sleepSecs ((resp.retry_after.getD 5 : ℕ) : ℚ),
        TgAction.post payload]
     else [TgAction.post payload]) ++ [TgAction.sleepSecs delay]

/-- The number of HTTP posts in a `send` trace. -/
def countPosts (tr : List TgAction) : ℕ :=
  tr.countP (fun a => match a with | TgAction.post _ => true | _ => false)

/-! ## C3: retry-once-on-429 -/

/-- C3: when the first post answers 429, `send` posts the payload, sleeps
for the server-advised `retry_after` seconds (defaulting to 5), and
re-posts the very same payload exactly once (two posts in total); for any
other non-200 status it performs a single post and no retry. -/
theorem send_retries_once_on_429 (payload : String) (delay : ℚ)
    (resp : TgResponse) :
    (resp.status = 429 →
      TelegramClient.send true payload delay resp =
        [TgAction.post payload,
         TgAction.sleepSecs ((resp.retry_after.getD 5 : ℕ) : ℚ),
         TgAction.post payload, TgAction.sleepSecs delay] ∧
      countPosts (TelegramClient.send true payload delay resp) = 2) ∧
    (resp.status ≠ 200 → resp.status ≠ 429 →
      TelegramClient.send true payload delay resp =
        [TgAction.post payload, TgAction.sleepSecs delay] ∧
      countPosts (TelegramClient.send true payload delay resp) = 1) := by
  constructor
  · intro h429
    have hne : resp.status ≠ 200 := by omega
    refine ⟨?_, ?_⟩ <;> simp [TelegramClient.send, countPosts, h429, hne]
  · intro h200 h429
    refine ⟨?_, ?_⟩ <;> simp [TelegramClient.send, countPosts, h200, h429]

/-- C3 witness: a concrete 429 response without a server-advised
`retry_after` leads to post, 5-second sleep, identical re-post. -/
theorem send_retries_once_on_429_witness :
    TelegramClient.send true "msg" 1 ⟨429, none⟩ =
      [TgAction.post "msg", TgAction.sleepSecs ((5 : ℕ) : ℚ),
       TgAction.post "msg", TgAction.sleepSecs 1] ∧
    countPosts (TelegramClient.send true "msg" 1 ⟨429, none⟩) = 2 :=
  (send_retries_once_on_429 "msg" 1 ⟨429, none⟩).1 rfl

/-! ## Consecutive limit-up days (`db_repo.py`
`DBRepo.get_consecutive_limit_up_days`) -/

/-- A `return_rate` cell as read back from the database: SQL `NULL`, a
value on which `float()` raises, or a numeric value. -/
inductive RRVal : Type where
  | null
  | malformed
  | num (q : ℚ)
deriving DecidableEq, Repr

/-- One row of the `individual_stock_analysis` query in
`get_consecutive_limit_up_days`: `analysis_date`, `return_rate`,
`is_rotc`. -/
structure DayRec where
  analysis_date : String
  return_rate : RRVal
  is_rotc : Bool
deriving DecidableEq, Repr

/-- The counting loop of `get_consecutive_limit_up_days`: walk the records
in order, incrementing while `float(return_rate) >= threshold`, and stop
(`break`) at the first `None`, unparsable, or below-threshold record. -/
def countConsecutive (main_threshold rotc_threshold : ℚ) : List DayRec → ℕ
  | [] => 0
  | r :: rest =>
    match r.return_rate with
    | RRVal.null => 0
    | RRVal.malformed => 0
    | RRVal.num q =>
      if q ≥ (if r.is_rotc then rotc_threshold else main_threshold) then
        countConsecutive main_threshold rotc_threshold rest + 1
      else 0

/-- `DBRepo.get_consecutive_limit_up_days` from `db_repo.py`. `ready` is
`self.is_ready()`; `resp` is the query result, `none` when anything in the
`try` block raises. The records are sorted by `analysis_date` (Python's
stable `sorted`, modelled by `mergeSort`), only the last 5
(`sorted_records[-5:]`) are inspected, and the result is clamped below by
`max(consecutive, 1)`. -/
def get_consecutive_limit_up_days (ready : Bool)
    (main_threshold rotc_threshold : ℚ) (resp : Option (List DayRec)) : ℕ :=
  if ready = false then 1
  else
    match resp with
    | none => 1
    | some [] => 1
    | some (r :: rs) =>
      let sorted_records := (r :: rs).mergeSort
        (fun a b => decide (a.analysis_date ≤ b.analysis_date))
      let last5 := sorted_records.drop (sorted_records.length - 5)
      max (countConsecutive main_threshold rotc_threshold last5) 1

lemma countConsecutive_le_length (mt rt : ℚ) (l : List DayRec) :
    countConsecutive mt rt l ≤ l.length := by
  induction l with
  | nil => exact le_refl 0
  | cons r rest ih =>
    rw [countConsecutive]
    cases hrr : r.return_rate with
    | null => simp
    | malformed => simp
    | num q =>
      show (if q ≥ (if r.is_rotc then rt else mt) then
          countConsecutive mt rt rest + 1 else 0) ≤ (r :: rest).length
      by_cases hq : q ≥ (if r.is_rotc then rt else mt)
      · rw [if_pos hq, List.length_cons]
        omega
      · rw [if_neg hq]
        simp

lemma max_countConsecutive_bounds (mt rt : ℚ) (l : List DayRec) :
    1 ≤ max (countConsecutive mt rt (l.drop (l.length - 5))) 1 ∧
    max (countConsecutive mt rt (l.drop (l.length - 5))) 1 ≤ 5 := by
  refine ⟨le_max_right _ 1, ?_⟩
  have hc := countConsecutive_le_length mt rt (l.drop (l.length - 5))
  rw [List.length_drop] at hc
  exact Nat.max_le.2 ⟨by omega, by omega⟩

/-! ## C8: the consecutive-day count is always between 1 and 5 -/

/-- C8: `get_consecutive_limit_up_days` returns an integer `n` with
`1 ≤ n ≤ 5` for every readiness state, thresholds, and database response
(including a raised query, an empty result, and records with `NULL` or
malformed `return_rate`): at most the last 5 sorted records are inspected
and the count is clamped below by `max(consecutive, 1)`. -/
theorem consecutive_days_bounds (ready : Bool) (mt rt : ℚ)
    (resp : Option (List DayRec)) :
    1 ≤ get_consecutive_limit_up_days ready mt rt resp ∧
    get_consecutive_limit_up_days ready mt rt resp ≤ 5 := by
  unfold get_consecutive_limit_up_days
  by_cases h : ready = false
  · rw [if_pos h]
    omega
  · rw [if_neg h]
    rcases resp with _ | ⟨_ | ⟨r, rs⟩⟩
    · exact show 1 ≤ 1 ∧ 1 ≤ 5 by omega
    · exact show 1 ≤ 1 ∧ 1 ≤ 5 by omega
    · exact max_countConsecutive_bounds mt rt
        ((r :: rs).mergeSort (fun a b => decide (a.analysis_date ≤ b.analysis_date)))

/-! ## The database upsert layer (`db_repo.py`) -/

/-- The effect of PostgREST `upsert(data, on_conflict=key)` on a table,
modelled as a list of rows: when a row with the same conflict-key value
exists it is overwritten in place, otherwise the new row is appended. -/
def upsertBy {R K : Type} [DecidableEq K] (key : R → K) (row : R)
    (t : List R) : List R :=
  if t.any (fun x => decide (key x = key row)) then
    t.map (fun x => if key x = key row then row else x)
  else t ++ [row]

/-- A table holding at most one row per conflict-key value. -/
def tableOk {R K : Type} (key : R → K) (t : List R) : Prop :=
  t.Pairwise (fun a b => key a ≠ key b)

lemma upsertBy_tableOk {R K : Type} [DecidableEq K] (key : R → K) (row : R)
    {t : List R} (h : tableOk key t) : tableOk key (upsertBy key row t) := by
  unfold upsertBy
  by_cases hany : t.any (fun x => decide (key x = key row)) = true
  · rw [if_pos hany]
    rw [tableOk, List.pairwise_map]
    refine List.Pairwise.imp_of_mem ?_ h
    intro a b _ _ hne
    by_cases hka : key a = key row
    · rw [if_pos hka]
      by_cases hkb : key b = key row
      · exact absurd (hka.trans hkb.symm) hne
      · rw [if_neg hkb]
        intro heq
        exact hkb (heq ▸ rfl)
    · rw [if_neg hka]
      by_cases hkb : key b = key row
      · rw [if_pos hkb]
        exact hka
      · rw [if_neg hkb]
        exact hne
  · rw [if_neg hany]
    rw [tableOk, List.pairwise_append]
    refine ⟨h, List.pairwise_singleton _ _, ?_⟩
    intro a ha b hb
    rw [List.mem_singleton] at hb
    subst hb
    intro heq
    exact hany (List.any_eq_true.2 ⟨a, ha, by simp [heq]⟩)

lemma map_upsert_of_no_key {R K : Type} [DecidableEq K] {key : R → K} {row : R}
    {t : List R} (h : ∀ x ∈ t, key x ≠ key row) :
    t.map (fun x => if key x = key row then row else x) = t := by
  have hmap : ∀ x ∈ t, (if key x = key row then row else x) = x := by
    intro x hx
    rw [if_neg (h x hx)]
  rw [List.map_congr_left hmap]
  exact List.map_id' t

lemma filter_key_eq_nil {R K : Type} [DecidableEq K] {key : R → K} {k : K}
    {t : List R} (h : ∀ x ∈ t, key x ≠ k) :
    t.filter (fun x => decide (key x = k)) = [] := by
  rw [List.filter_eq_nil_iff]
  intro x hx
  simp [h x hx]

lemma filter_map_upsert {R K : Type} [DecidableEq K] (key : R → K) (row : R) :
    ∀ (t : List R), tableOk key t →
      t.any (fun x => decide (key x = key row)) = true →
      (t.map (fun x => if key x = key row then row else x)).filter
        (fun x => decide (key x = key row)) = [row] := by
  intro t
  induction t with
  | nil =>
    intro _ hany
    simp at hany
  | cons a rest ih =>
    intro h hany
    rw [tableOk, List.pairwise_cons] at h
    obtain ⟨ha, hrest⟩ := h
    by_cases hka : key a = key row
    · rw [List.map_cons, if_pos hka, List.filter_cons, if_pos (by simp)]
      have hnokey : ∀ x ∈ rest, key x ≠ key row := by
        intro x hx heq
        exact ha x hx (hka.trans heq.symm)
      rw [map_upsert_of_no_key hnokey, filter_key_eq_nil hnokey]
    · rw [List.map_cons, if_neg hka, List.filter_cons, if_neg (by simp [hka])]
      have hany2 : rest.any (fun x => decide (key x = key row)) = true := by
        rcases List.any_eq_true.1 hany with ⟨x, hx, hfx⟩
        rcases List.mem_cons.1 hx with rfl | hxr
        · rw [decide_eq_true_eq] at hfx
          exact absurd hfx hka
        · exact List.any_eq_true.2 ⟨x, hxr, hfx⟩
      exact ih hrest hany2

lemma upsertBy_filter_self {R K : Type} [DecidableEq K] (key : R → K)
    (row : R) {t : List R} (h : tableOk key t) :
    (upsertBy key row t).filter (fun x => decide (key x = key row)) = [row] := by
  unfold upsertBy
  by_cases hany : t.any (fun x => decide (key x = key row)) = true
  · rw [if_pos hany]
    exact filter_map_upsert key row t h hany
  · rw [if_neg hany, List.filter_append]
    have hno : ∀ x ∈ t, key x ≠ key row := by
      intro x hx heq
      exact hany (List.any_eq_true.2 ⟨x, hx, by simp [heq]⟩)
    rw [filter_key_eq_nil hno]
    simp

/-! ## Stock records and the two persistence calls -/

/-- The per-symbol `info` dict assembled in `run_monitor` (`monitor.py`).
The dict key named `return` is called `ret` here (`return` is reserved in
Lean); `ai_comment` is `none` while the key is absent from the dict. -/
structure StockInfo where
  symbol : String
  name : String
  sector : String
  ret : ℚ
  price : ℚ
  is_rotc : Bool
  consecutive_days : ℕ
  ai_comment : Option String
  volume_ratio : Option ℚ
deriving DecidableEq, Repr

/-- A row of the `individual_stock_analysis` table as built by
`DBRepo.save_stock_with_analysis` (the wall-clock `created_at` column is
omitted). -/
structure StockRow where
  analysis_date : String
  symbol : String
  stock_name : String
  sector : String
  return_rate : ℚ
  price : ℚ
  is_rotc : Bool
  ai_comment : String
  consecutive_days : ℕ
  volume_ratio : Option ℚ
deriving DecidableEq, Repr

/-- The `data` dict built by `save_stock_with_analysis` from `stock_info`:
each `.get` default is reproduced (`ai_comment` defaults to `""`). -/
def rowOfInfo (today : String) (info : StockInfo) : StockRow :=
  { analysis_date := today
    symbol := info.symbol
    stock_name := info.name
    sector := info.sector
    return_rate := info.ret
    price := info.price
    is_rotc := info.is_rotc
    ai_comment := info.ai_comment.getD ""
    consecutive_days := info.consecutive_days
    volume_ratio := info.volume_ratio }

/-- The conflict key `on_conflict="analysis_date,symbol"` of
`save_stock_with_analysis`. -/
def stockKey (r : StockRow) : String × String := (r.analysis_date, r.symbol)

/-- `DBRepo.save_stock_with_analysis` from `db_repo.py`: an upsert of the
assembled row with conflict key `(analysis_date, symbol)`; `today` is
`datetime.now().strftime("%Y-%m-%d")`. -/
def save_stock_with_analysis (today : String) (info : StockInfo)
    (t : List StockRow) : List StockRow :=
  upsertBy stockKey (rowOfInfo today info) t

/-- A row of the `daily_market_summary` table as built by
`DBRepo.upsert_daily_market_summary` (`created_at` omitted). -/
structure SummaryRow where
  analysis_date : String
  stock_count : ℕ
  summary_content : String
  stock_list : String
deriving DecidableEq, Repr

/-- The conflict key of the summary upsert.
Modelled from the spec: `upsert_daily_market_summary` calls
`.upsert(safe_data)` with no explicit `on_conflict`, so the conflict target
is the table's primary key; the schema is not in the repository, and the
spec states the summary table is keyed by `(date)`, so the key is
`analysis_date`. -/
def summaryKey (r : SummaryRow) : String := r.analysis_date

/-- The `safe_data` dict of `upsert_daily_market_summary`: summary truncated
to 5000 characters, the joined `name(symbol)` list, or the string `"無"`
when no stock was flagged. -/
def summaryRowOf (today : String) (total_stocks : ℕ)
    (limit_up_stocks : List StockInfo) (market_summary : String) : SummaryRow :=
  { analysis_date := today
    stock_count := total_stocks
    summary_content := market_summary.take 5000
    stock_list :=
      if limit_up_stocks = [] then "無"
      else String.intercalate ", "
        (limit_up_stocks.map (fun s => s.name ++ "(" ++ s.symbol ++ ")")) }

/-- `DBRepo.upsert_daily_market_summary` from `db_repo.py`. -/
def upsert_daily_market_summary (today : String) (total_stocks : ℕ)
    (limit_up_stocks : List StockInfo) (market_summary : String)
    (t : List SummaryRow) : List SummaryRow :=
  upsertBy summaryKey (summaryRowOf today total_stocks limit_up_stocks market_summary) t

/-! ## C5: persisted records are simple upserts keyed by (date, symbol) / (date) -/

/-- C5: `save_stock_with_analysis` preserves at-most-one-row-per
`(analysis_date, symbol)`, and a second write of the same symbol on the
same date leaves exactly the second row under that key; likewise
`upsert_daily_market_summary` preserves at-most-one-row-per-date and a
second summary write for the same date leaves exactly the second row. -/
theorem saves_are_keyed_upserts :
    (∀ (t : List StockRow) (today : String) (i : StockInfo),
      tableOk stockKey t →
      tableOk stockKey (save_stock_with_analysis today i t)) ∧
    (∀ (t : List StockRow) (today : String) (i1 i2 : StockInfo),
      tableOk stockKey t → i1.symbol = i2.symbol →
      (save_stock_with_analysis today i2
          (save_stock_with_analysis today i1 t)).filter
          (fun r => decide (stockKey r = (today, i2.symbol))) =
        [rowOfInfo today i2]) ∧
    (∀ (t : List SummaryRow) (today : String) (n : ℕ)
        (l : List StockInfo) (s : String),
      tableOk summaryKey t →
      tableOk summaryKey (upsert_daily_market_summary today n l s t)) ∧
    (∀ (t : List SummaryRow) (today : String) (n1 n2 : ℕ)
        (l1 l2 : List StockInfo) (s1 s2 : String),
      tableOk summaryKey t →
      (upsert_daily_market_summary today n2 l2 s2
          (upsert_daily_market_summary today n1 l1 s1 t)).filter
          (fun r => decide (summaryKey r = today)) =
        [summaryRowOf today n2 l2 s2]) := by
  refine ⟨?_, ?_, ?_, ?_⟩
  · intro t today i h
    exact upsertBy_tableOk stockKey (rowOfInfo today i) h
  · intro t today i1 i2 h _
    exact upsertBy_filter_self stockKey (rowOfInfo today i2)
      (upsertBy_tableOk stockKey (rowOfInfo today i1) h)
  · intro t today n l s h
    exact upsertBy_tableOk summaryKey (summaryRowOf today n l s) h
  · intro t today n1 n2 l1 l2 s1 s2 h
    exact upsertBy_filter_self summaryKey (summaryRowOf today n2 l2 s2)
      (upsertBy_tableOk summaryKey (summaryRowOf today n1 l1 s1) h)

/-- C5 witness: two same-day writes of symbol `2330.TW` into the empty
table leave exactly one row, holding the second write's data. -/
theorem saves_are_keyed_upserts_witness :
    (save_stock_with_analysis "2026-10-12"
        ⟨"2330.TW", "台積電", "半導體", 1 / 10, 1100, false, 2, some "good", none⟩
        (save_stock_with_analysis "2026-10-12"
          ⟨"2330.TW", "台積電", "半導體", 1 / 10, 1100, false, 1, none, none⟩
          [])).filter
        (fun r => decide (stockKey r = ("2026-10-12", "2330.TW"))) =
      [rowOfInfo "2026-10-12"
        ⟨"2330.TW", "台積電", "半導體", 1 / 10, 1100, false, 2, some "good", none⟩] :=
  saves_are_keyed_upserts.2.1 []
    "2026-10-12"
    ⟨"2330.TW", "台積電", "半導體", 1 / 10, 1100, false, 1, none, none⟩
    ⟨"2330.TW", "台積電", "半導體", 1 / 10, 1100, false, 2, some "good", none⟩
    (List.Pairwise.nil) rfl

/-! ## The AI commentary cache (`ai_analyzer.py` `StockAIAnalyzer`) -/

/-- The cache key built in `analyze_individual_stock`:
`cache_key = f"individual_{symbol}"`. -/
def individualCacheKey (symbol : String) : String := "individual_" ++ symbol

/-- The mutable state of a `StockAIAnalyzer` instance as touched by
`analyze_individual_stock`: the `analyzed_cache` dict (an association list,
newest entry first), the number of `generate_content` model calls made so
far, and the `ai_comment` updates issued to the database by
`_update_stock_analysis` (as `(analysis_date, symbol, text)` triples). -/
structure AnalyzerState where
  analyzed_cache : List (String × String)
  modelCalls : ℕ
  dbUpdates : List (String × String × String)
deriving DecidableEq, Repr

/-- `cache_key in self.analyzed_cache` / `self.analyzed_cache[cache_key]`. -/
def cacheLookup (k : String) : List (String × String) → Option String
  | [] => none
  | (k2, v) :: rest => if k2 = k then some v else cacheLookup k rest

/-- `StockAIAnalyzer.analyze_individual_stock(stock_info)` from
`ai_analyzer.py`. `avail` is `self.is_available()`; `gen` is the outcome of
`self.model.generate_content(prompt).text` (`none` when the call raises);
`today` is `datetime.now()`'s date, which the surrounding code reads (for
the DB update in `_update_stock_analysis`) but does not put into the cache
key. On a cache hit the cached string is returned and nothing changes; on
a miss the model is called once and a successful result is cached under
`individual_{symbol}` and written to the database. -/
def analyze_individual_stock (avail : Bool) (gen : Option String)
    (today symbol : String) (st : AnalyzerState) :
    Option String × AnalyzerState :=
  if avail = false then (none, st)
  else
    match cacheLookup (individualCacheKey symbol) st.analyzed_cache with
    | some cached => (some cached, st)
    | none =>
      match gen with
      | some analysis =>
        (some analysis,
         { analyzed_cache :=
             (individualCacheKey symbol, analysis) :: st.analyzed_cache
           modelCalls := st.modelCalls + 1
           dbUpdates := (today, symbol, analysis) :: st.dbUpdates })
      | none => (none, { st with modelCalls := st.modelCalls + 1 })

/-- A substring test, used to state that the cache key does not mention the
date. -/
def containsSeq (pat : List Char) : List Char → Bool
  | [] => decide (pat = [])
  | c :: rest => pat.isPrefixOf (c :: rest) || containsSeq pat rest

lemma analyze_hit {gen : Option String} {today symbol : String}
    {st : AnalyzerState} {v : String}
    (h : cacheLookup (individualCacheKey symbol) st.analyzed_cache = some v) :
    analyze_individual_stock true gen today symbol st = (some v, st) := by
  unfold analyze_individual_stock
  rw [if_neg (by simp), h]

lemma analyze_first_some {gen : Option String} {today symbol : String}
    {st : AnalyzerState} {a : String}
    (h : (analyze_individual_stock true gen today symbol st).1 = some a) :
    cacheLookup (individualCacheKey symbol)
      (analyze_individual_stock true gen today symbol st).2.analyzed_cache =
      some a := by
  unfold analyze_individual_stock at h ⊢
  rw [if_neg (by simp)] at h ⊢
  cases hc : cacheLookup (individualCacheKey symbol) st.analyzed_cache with
  | some cached =>
    rw [hc] at h
    have ha : cached = a := Option.some.inj h
    show cacheLookup (individualCacheKey symbol) st.analyzed_cache = some a
    rw [hc, ha]
  | none =>
    rw [hc] at h
    cases gen with
    | some analysis =>
      have ha : analysis = a := Option.some.inj h
      show cacheLookup (individualCacheKey symbol)
        ((individualCacheKey symbol, analysis) :: st.analyzed_cache) = some a
      rw [cacheLookup, if_pos rfl, ha]
    | none => exact Option.noConfusion h

/-! ## C2: at-most-once AI commentary, cache keyed by symbol -/

/-- C2 (amended): once `analyze_individual_stock` has returned a string for
a symbol, that string sits in `analyzed_cache` under
`individual_{symbol}`, and a second call for the same symbol — on any date
and with any model behaviour — returns exactly the cached string with the
analyzer state unchanged: no second model call and no second DB update.
The cache key incorporates the symbol only, not the date. -/
theorem analyze_individual_cached_once (gen gen2 : Option String)
    (today today2 symbol : String) (st : AnalyzerState) (a : String)
    (h : (analyze_individual_stock true gen today symbol st).1 = some a) :
    cacheLookup (individualCacheKey symbol)
        (analyze_individual_stock true gen today symbol st).2.analyzed_cache =
      some a ∧
    analyze_individual_stock true gen2 today2 symbol
        (analyze_individual_stock true gen today symbol st).2 =
      (some a, (analyze_individual_stock true gen today symbol st).2) :=
  ⟨analyze_first_some h, analyze_hit (analyze_first_some h)⟩

/-- C2 witness: a successful first call on 2026-10-12, then a second call
on a different date whose model invocation would fail — the cached string
is returned and the state (model-call count included) is untouched. -/
theorem analyze_individual_cached_once_witness :
    analyze_individual_stock true none "2026-10-13" "2330.TW"
        (analyze_individual_stock true (some "強勢")
          "2026-10-12" "2330.TW" ⟨[], 0, []⟩).2 =
      (some "強勢",
       (analyze_individual_stock true (some "強勢")
          "2026-10-12" "2330.TW" ⟨[], 0, []⟩).2) :=
  (analyze_individual_cached_once (some "強勢") none "2026-10-12" "2026-10-13"
    "2330.TW" ⟨[], 0, []⟩ "強勢" rfl).2

/-- C2 counterexample: the cache key used for symbol `2330.TW` is the
date-free string `individual_2330.TW` — identical for runs dated
2026-10-12 and 2026-10-13, and containing neither date — refuting the
claim that the cache key incorporates both the symbol and the date. -/
theorem analyze_cache_key_has_no_date :
    (analyze_individual_stock true (some "強勢") "2026-10-12" "2330.TW"
        ⟨[], 0, []⟩).2.analyzed_cache = [("individual_2330.TW", "強勢")] ∧
    (analyze_individual_stock true (some "強勢") "2026-10-13" "2330.TW"
        ⟨[], 0, []⟩).2.analyzed_cache = [("individual_2330.TW", "強勢")] ∧
    containsSeq "2026-10-12".toList "individual_2330.TW".toList = false ∧
    containsSeq "2026-10-13".toList "individual_2330.TW".toList = false :=
  ⟨rfl, rfl, by decide, by decide⟩

/-! ## The per-symbol flow of `run_monitor` (`monitor.py`) -/

/-- `AIService.analyze_individual` from `ai_service.py`: gated by
`is_ready()` and the individual-AI switch; the underlying analyzer call is
modelled by its outcome `result` (`Except.error e` when it raises). Every
exception is caught and turned into `None` — the method never propagates
an error. -/
def AIService.analyze_individual (ready ind : Bool)
    (result : Except String (Option String)) : Option String :=
  if !(ready && ind) then none
  else
    match result with
    | Except.error _ => none
    | Except.ok v => v

/-- An observable event of `run_monitor`'s per-symbol handling. -/
inductive Event : Type where
  | dbWrite (row : StockRow)
  | aiCall (symbol : String)
  | notify (symbol : String) (ai_text : List Char)
deriving DecidableEq, Repr

/-- The fixed commentary `run_monitor` seeds before attempting the AI
call: `"AI 分析處理中，請稍後查看儀表板。"`. -/
def placeholderComment : String := "AI 分析處理中，請稍後查看儀表板。"

/-- One flagged symbol's handling inside the scan loop of `run_monitor`
(`monitor.py` lines 266-319): the basic row is saved first (when the DB is
ready), then — when the individual-AI switch is on — the commentary is
seeded with the placeholder, `ai_service.analyze_individual` is consulted
(`aiResult` is its outcome), and a truthy result replaces the commentary,
is stored into the info dict, and is saved again; finally the Telegram
notification is sent carrying `clean_markdown(ai_comment[:150])`. Returns
the event trace and the updated info dict. -/
def processFlagged (today : String) (db_ready ai_ind : Bool)
    (aiResult : Option String) (info : StockInfo) : List Event × StockInfo :=
  let preEvents := if db_ready then [Event.dbWrite (rowOfInfo today info)] else []
  let step2 :=
    if ai_ind then
      match aiResult with
      | some res =>
        if res ≠ "" then
          let info2 := { info with ai_comment := some res }
          (Event.aiCall info.symbol ::
            (if db_ready then [Event.dbWrite (rowOfInfo today info2)] else []),
           res, info2)
        else ([Event.aiCall info.symbol], placeholderComment, info)
      | none => ([Event.aiCall info.symbol], placeholderComment, info)
    else ([], "", info)
  let safe_ai := clean_markdown (step2.2.1.toList.take 150)
  (preEvents ++ step2.1 ++ [Event.notify info.symbol safe_ai], step2.2.2)

/-- The post-scan re-save loop of `run_monitor` (lines 333-339): every
flagged stock's current info dict is saved once more when the DB is
ready. -/
def resaveEvents (today : String) (db_ready : Bool)
    (stocks : List StockInfo) : List Event :=
  if db_ready then stocks.map (fun s => Event.dbWrite (rowOfInfo today s)) else []

/-- The scan phase of `run_monitor` over the flagged symbols followed by
the re-save loop: each flagged stock is processed in order, then every
updated info dict is saved again. `results` pairs each flagged stock's
info dict with the outcome of its individual-AI call. -/
def scanThenResave (today : String) (db_ready ai_ind : Bool)
    (results : List (StockInfo × Option String)) : List Event :=
  (results.map (fun p => (processFlagged today db_ready ai_ind p.2 p.1).1)).flatten
    ++ resaveEvents today db_ready
        (results.map (fun p => (processFlagged today db_ready ai_ind p.2 p.1).2))

/-! ## C4: persistent AI failure yields the placeholder, not an exception -/

/-- C4 (amended): when the individual AI analysis raises,
`AIService.analyze_individual` swallows the error and returns `None`; the
commentary carried by the symbol's notification is the fixed placeholder
string; but every database row written for the symbol (the pre-AI save and
the post-scan re-save) stores an **empty** `ai_comment`, not the
placeholder. -/
theorem ai_failure_placeholder (today : String) (db_ready : Bool)
    (info : StockInfo) (e : String) (hai : info.ai_comment = none) :
    AIService.analyze_individual true true (Except.error e) = none ∧
    (∀ s t, Event.notify s t ∈ (processFlagged today db_ready true none info).1 →
      t = clean_markdown (placeholderComment.toList.take 150)) ∧
    (∀ r, Event.dbWrite r ∈ scanThenResave today db_ready true [(info, none)] →
      r.ai_comment = "") := by
  refine ⟨rfl, ?_, ?_⟩
  · intro s t ht
    cases db_ready <;> simp [processFlagged] at ht <;> exact ht.2
  · intro r hr
    cases db_ready <;>
      simp [scanThenResave, processFlagged, resaveEvents] at hr
    rcases hr with rfl | rfl <;> simp [rowOfInfo, hai]

/-- C4 witness: a concrete raising AI call for a freshly flagged stock. -/
theorem ai_failure_placeholder_witness :
    AIService.analyze_individual true true (Except.error "HTTP 429") = none ∧
    (∀ s t, Event.notify s t ∈ (processFlagged "2026-10-12" true true none
        ⟨"2330.TW", "台積電", "半導體", 1 / 10, 1100, false, 1, none, none⟩).1 →
      t = clean_markdown (placeholderComment.toList.take 150)) ∧
    (∀ r, Event.dbWrite r ∈ scanThenResave "2026-10-12" true true
        [(⟨"2330.TW", "台積電", "半導體", 1 / 10, 1100, false, 1, none, none⟩, none)] →
      r.ai_comment = "") :=
  ai_failure_placeholder "2026-10-12" true
    ⟨"2330.TW", "台積電", "半導體", 1 / 10, 1100, false, 1, none, none⟩
    "HTTP 429" rfl

/-- C4 counterexample: with the database ready and the AI failing, the two
database writes for the symbol both store `ai_comment = ""`, which differs
from the placeholder the claim says is stored. -/
theorem ai_failure_stored_blank :
    (scanThenResave "2026-10-12" true true
        [(⟨"2330.TW", "台積電", "半導體", 1 / 10, 1100, false, 1, none, none⟩,
          none)]).filterMap
        (fun ev => match ev with
          | Event.dbWrite r => some r.ai_comment
          | _ => none) = ["", ""] ∧
    placeholderComment ≠ "" :=
  ⟨rfl, by decide⟩

/-! ## C6: per-symbol stage ordering -/

/-- C6 (amended): for a flagged symbol (DB ready, individual AI on) the
trace is: first the basic database write, second the AI commentary call,
and the Telegram notification last — i.e. the first DB write *precedes*
the AI call, and the post-AI DB write (when any) precedes the
notification; moreover in the scan-then-resave run the trace ends with the
re-save database write, which comes after the notification. -/
theorem per_symbol_event_order (today : String) (info : StockInfo)
    (aiResult : Option String) :
    (processFlagged today true true aiResult info).1.head? =
      some (Event.dbWrite (rowOfInfo today info)) ∧
    (processFlagged today true true aiResult info).1.get? 1 =
      some (Event.aiCall info.symbol) ∧
    (∃ t, (processFlagged today true true aiResult info).1.getLast? =
      some (Event.notify info.symbol t)) ∧
    (∃ r, (scanThenResave today true true [(info, aiResult)]).getLast? =
      some (Event.dbWrite r)) := by
  rcases aiResult with _ | res
  · exact ⟨rfl, rfl, ⟨_, rfl⟩, ⟨_, rfl⟩⟩
  · by_cases hres : res = ""
    · subst hres
      exact ⟨rfl, rfl, ⟨_, rfl⟩, ⟨_, rfl⟩⟩
    · refine ⟨?_, ?_, ⟨clean_markdown (res.toList.take 150), ?_⟩,
        ⟨rowOfInfo today { info with ai_comment := some res }, ?_⟩⟩ <;>
        simp [processFlagged, scanThenResave, resaveEvents, hres]

/-- C6 counterexample: with a successful AI call, the trace for a flagged
symbol starts with a database write (index 0) followed by the AI call
(index 1), refuting the claim that the AI commentary call happens before
the database write for the symbol. -/
theorem per_symbol_ai_not_before_db :
    ¬ (∀ (i j : ℕ) (s : String) (r : StockRow),
        (processFlagged "2026-10-12" true true (some "看多")
          ⟨"2330.TW", "台積電", "半導體", 1 / 10, 1100, false, 1, none, none⟩).1.get? i =
            some (Event.aiCall s) →
        (processFlagged "2026-10-12" true true (some "看多")
          ⟨"2330.TW", "台積電", "半導體", 1 / 10, 1100, false, 1, none, none⟩).1.get? j =
            some (Event.dbWrite r) →
        i < j) := by
  intro h
  have hcon := h 1 0 "2330.TW"
    (rowOfInfo "2026-10-12"
      ⟨"2330.TW", "台積電", "半導體", 1 / 10, 1100, false, 1, none, none⟩)
    rfl rfl
  omega

/-! ## Batch scanning and error counting (`run_monitor`, `monitor.py`
lines 221-328) -/

/-- A cell of a downloaded price series: `NaN` or a value. -/
inductive PVal : Type where
  | nan
  | val (q : ℚ)
deriving DecidableEq, Repr

/-- The per-symbol slice of the `yf.download` batch frame: whether
`df.empty` holds, whether a `Close` column is present, and the `Close`
column cells. -/
structure SymFrame where
  isEmptyFrame : Bool
  hasCloseCol : Bool
  closes : List PVal
deriving DecidableEq, Repr

/-- The outcome of one symbol inside the scan loop. -/
inductive ScanOutcome : Type where
  | error
  | notLimitUp
  | limitUp (ret : ℚ) (price : ℚ)
deriving DecidableEq, Repr

/-- The per-symbol body of the scan loop (`monitor.py` lines 235-263).
`data = none` models `symbol not in df_batch.columns.levels[0]`; then come
the `df.empty` / missing-`Close` checks, `dropna`, the at-least-two-closes
check, the `isna`-or-zero checks on the last two closes (the `isna` arms
are unreachable after `dropna` but kept as in the source), the return
`curr/prev - 1`, and `_detect_limit_up`. Every failed check yields
`ScanOutcome.error` — in the loop, `error_count += 1; continue`. -/
def scanSymbol (cfg : String → Option ℚ) (is_rotc : Bool)
    (data : Option SymFrame) : ScanOutcome :=
  match data with
  | none => ScanOutcome.error
  | some f =>
    if f.isEmptyFrame || !f.hasCloseCol then ScanOutcome.error
    else
      let close_data := f.closes.filter (fun v => decide (v ≠ PVal.nan))
      if close_data.length < 2 then ScanOutcome.error
      else
        match close_data.reverse with
        | curr :: prev :: _ =>
          if curr = PVal.nan ∨ prev = PVal.nan ∨ prev = PVal.val 0 then
            ScanOutcome.error
          else
            match curr, prev with
            | PVal.val c, PVal.val p =>
              if _detect_limit_up (c / p - 1) is_rotc cfg then
                ScanOutcome.limitUp (c / p - 1) c
              else ScanOutcome.notLimitUp
            | _, _ => ScanOutcome.error
        | _ => ScanOutcome.error

/-- Does the outcome increment `error_count`? -/
def isScanError : ScanOutcome → Bool
  | ScanOutcome.error => true
  | _ => false

/-- Is the outcome a flagged limit-up find? -/
def isLimitUp : ScanOutcome → Bool
  | ScanOutcome.limitUp _ _ => true
  | _ => false

/-- One step of the batch loop's bookkeeping: an error bumps
`error_count`, a find bumps `found_count`, everything else leaves both. -/
def scanStep (cfg : String → Option ℚ) (acc : ℕ × ℕ)
    (x : Bool × Option SymFrame) : ℕ × ℕ :=
  match scanSymbol cfg x.1 x.2 with
  | ScanOutcome.error => (acc.1 + 1, acc.2)
  | ScanOutcome.notLimitUp => acc
  | ScanOutcome.limitUp _ _ => (acc.1, acc.2 + 1)

/-- The `(error_count, found_count)` contribution of one batch
(`monitor.py` lines 221-328): when the whole `yf.download` call raises
(`downloadOk = false`), `error_count += len(batch_symbols)` and nothing is
flagged; otherwise each symbol of the batch is processed in turn. The
batch loop itself never aborts — it is a total fold. -/
def scanBatch (cfg : String → Option ℚ) (downloadOk : Bool)
    (batch : List (Bool × Option SymFrame)) : ℕ × ℕ :=
  if !downloadOk then (batch.length, 0)
  else batch.foldl (scanStep cfg) (0, 0)

lemma scanBatch_fold (cfg : String → Option ℚ) :
    ∀ (l : List (Bool × Option SymFrame)) (a b : ℕ),
      l.foldl (scanStep cfg) (a, b) =
        (a + l.countP (fun x => isScanError (scanSymbol cfg x.1 x.2)),
         b + l.countP (fun x => isLimitUp (scanSymbol cfg x.1 x.2))) := by
  intro l
  induction l with
  | nil =>
    intro a b
    simp
  | cons x xs ih =>
    intro a b
    rw [List.foldl_cons, List.countP_cons, List.countP_cons]
    cases hout : scanSymbol cfg x.1 x.2 with
    | error =>
      have hstep : scanStep cfg (a, b) x = (a + 1, b) := by
        simp [scanStep, hout]
      rw [hstep, ih (a + 1) b]
      simp [isScanError, isLimitUp]
      omega
    | notLimitUp =>
      have hstep : scanStep cfg (a, b) x = (a, b) := by
        simp [scanStep, hout]
      rw [hstep, ih a b]
      simp [isScanError, isLimitUp]
    | limitUp ret price =>
      have hstep : scanStep cfg (a, b) x = (a, b + 1) := by
        simp [scanStep, hout]
      rw [hstep, ih a (b + 1)]
      simp [isScanError, isLimitUp]
      omega

/-! ## C7: errors are counted per symbol and the scan continues -/

/-- C7: a symbol absent from the batch frame, an empty frame, a missing
`Close` column, fewer than two non-NaN closes, or a NaN/zero previous
close each yield `ScanOutcome.error` (one error-count increment, no flag);
a whole-batch download failure contributes the batch size to the error
count with nothing flagged; and on a successful download the batch fold
counts exactly the per-symbol errors and finds — it processes every
symbol and never aborts. -/
theorem scan_errors_counted (cfg : String → Option ℚ) (b : Bool)
    (f : SymFrame) (batch : List (Bool × Option SymFrame))
    (curr prev : PVal) (rest : List PVal) :
    scanSymbol cfg b none = ScanOutcome.error ∧
    (f.isEmptyFrame = true → scanSymbol cfg b (some f) = ScanOutcome.error) ∧
    (f.hasCloseCol = false → scanSymbol cfg b (some f) = ScanOutcome.error) ∧
    ((f.closes.filter (fun v => decide (v ≠ PVal.nan))).length < 2 →
      scanSymbol cfg b (some f) = ScanOutcome.error) ∧
    ((f.closes.filter (fun v => decide (v ≠ PVal.nan))).reverse =
        curr :: prev :: rest →
      curr = PVal.nan ∨ prev = PVal.nan ∨ prev = PVal.val 0 →
      scanSymbol cfg b (some f) = ScanOutcome.error) ∧
    scanBatch cfg false batch = (batch.length, 0) ∧
    scanBatch cfg true batch =
      (batch.countP (fun x => isScanError (scanSymbol cfg x.1 x.2)),
       batch.countP (fun x => isLimitUp (scanSymbol cfg x.1 x.2))) := by
  refine ⟨rfl, ?_, ?_, ?_, ?_, ?_, ?_⟩
  · intro h
    simp [scanSymbol, h]
  · intro h
    simp [scanSymbol, h]
  · intro h
    simp only [ne_eq, decide_not] at h
    by_cases hemp : f.isEmptyFrame = true
    · simp [scanSymbol, hemp]
    · simp only [Bool.not_eq_true] at hemp
      by_cases hcol : f.hasCloseCol = true
      · simp [scanSymbol, hemp, hcol]
        intro hge
        omega
      · simp only [Bool.not_eq_true] at hcol
        simp [scanSymbol, hcol]
  · intro hrev hbad
    simp only [ne_eq, decide_not] at hrev
    by_cases hemp : f.isEmptyFrame = true
    · simp [scanSymbol, hemp]
    · simp only [Bool.not_eq_true] at hemp
      by_cases hcol : f.hasCloseCol = true
      · simp only [scanSymbol, hemp, hcol, ne_eq, decide_not]
        have hlen :
            ¬ ((f.closes.filter (fun v => !decide (v = PVal.nan))).length < 2) := by
          have hl := congrArg List.length hrev
          simp at hl
          omega
        rw [if_neg (by simp), if_neg hlen, hrev]
        simp [hbad]
      · simp only [Bool.not_eq_true] at hcol
        simp [scanSymbol, hcol]
  · simp [scanBatch]
  · show batch.foldl (scanStep cfg) (0, 0) = _
    rw [scanBatch_fold cfg batch 0 0]
    simp

/-- C7 witness: concrete error cases — an empty frame, a single-close
frame, and a zero previous close — plus a failed two-symbol batch. -/
theorem scan_errors_counted_witness :
    scanSymbol (fun _ => none) false none = ScanOutcome.error ∧
    scanSymbol (fun _ => none) false
      (some ⟨true, true, []⟩) = ScanOutcome.error ∧
    scanSymbol (fun _ => none) false
      (some ⟨false, false, []⟩) = ScanOutcome.error ∧
    scanSymbol (fun _ => none) false
      (some ⟨false, true, [PVal.nan, PVal.val 5]⟩) = ScanOutcome.error ∧
    scanSymbol (fun _ => none) false
      (some ⟨false, true, [PVal.val 0, PVal.val 7]⟩) = ScanOutcome.error ∧
    scanBatch (fun _ => none) false [(false, none), (true, none)] = (2, 0) := by
  have h := scan_errors_counted (fun _ => none) false
    ⟨true, true, []⟩ [(false, none), (true, none)]
    PVal.nan PVal.nan []
  have h2 := scan_errors_counted (fun _ => none) false
    ⟨false, false, []⟩ [] PVal.nan PVal.nan []
  have h3 := scan_errors_counted (fun _ => none) false
    ⟨false, true, [PVal.nan, PVal.val 5]⟩ [] PVal.nan PVal.nan []
  have h4 := scan_errors_counted (fun _ => none) false
    ⟨false, true, [PVal.val 0, PVal.val 7]⟩ [] (PVal.val 7) (PVal.val 0) []
  refine ⟨h.1, h.2.1 rfl, h2.2.2.1 rfl, h3.2.2.2.1 (by decide), ?_, h.2.2.2.2.2.1⟩
  exact h4.2.2.2.2.1 (by decide) (by decide)

end TWMon
